/-
Verification development for the Atlanta food-provider coverage pipeline
(`scripts/precompute_network_coverage.py` and `app.py`).

The Python sources are shallowly embedded as follows.

* CLI strings are modelled as Lean `String` values; the Python string
  operations `strip`, `lower`, `split(",")` and float parsing are modelled
  by structural functions over `List Char` so that every parsing
  definition evaluates by kernel reduction.  The float-literal parser
  `pyFloat` covers plain decimal literals (optionally signed), the only
  shape the pipeline feeds it.
* Rational numbers stand in for Python floats.  `round(x, 1)` is modelled
  exactly as round-half-to-even at one decimal place (`round1`).
* The street graph is a finite directed multigraph with rational edge
  lengths.  `nx.ego_graph(G, n, radius=d, distance="length")` is modelled
  as the subgraph induced on the nodes whose shortest-path distance from
  `n` is at most `d`; shortest-path distance is computed by bounded
  Bellman-Ford relaxation (`distsUpTo`), which agrees with the Dijkstra
  expansion used by networkx for the nonnegative physical edge lengths of
  a street network.
* Shapely geometry lives in the plane `ℝ × ℝ`: `buffer` of a node is a
  closed ball, `buffer` of an edge is the closed thickening of the
  straight segment between its endpoints (osmnx fills edge geometry with
  such segments when the edge carries none), `unary_union` is set union,
  `convex_hull` is `convexHull ℝ`, `.intersection`/`.difference` are set
  intersection and difference, and `.area` is Lebesgue measure.
-/
import Mathlib

attribute [local semireducible] Rat.add Rat.mul Rat.sub Rat.inv Rat.ofScientific

namespace AtlantaCoverage

open scoped ENNReal

/-- Decidable equality for `Except`, used to evaluate the embedded
fallible parsers on concrete inputs. -/
instance {ε α : Type} [DecidableEq ε] [DecidableEq α] : DecidableEq (Except ε α) := fun x y =>
  match x, y with
  | .ok a, .ok b =>
    if h : a = b then isTrue (by rw [h]) else isFalse (fun hh => h (Except.ok.inj hh))
  | .error a, .error b =>
    if h : a = b then isTrue (by rw [h]) else isFalse (fun hh => h (Except.error.inj hh))
  | .ok _, .error _ => isFalse (fun hh => Except.noConfusion hh)
  | .error _, .ok _ => isFalse (fun hh => Except.noConfusion hh)

/-! ## Python string primitives over character lists -/

/-- Whitespace test used by the model of Python `str.strip`. -/
def isSpaceChar (c : Char) : Bool :=
  c == ' ' || c == '\t' || c == '\n' || c == '\r'

/-- Model of Python `str.strip`: drop whitespace from both ends. -/
def trimChars (cs : List Char) : List Char :=
  ((cs.dropWhile isSpaceChar).reverse.dropWhile isSpaceChar).reverse

/-- Model of Python `str.split(",")`.  Note `"".split(",") == [""]`. -/
def splitOnComma : List Char → List (List Char)
  | [] => [[]]
  | c :: rest =>
    let groups := splitOnComma rest
    if c = ',' then [] :: groups
    else
      match groups with
      | [] => [[c]]
      | g :: gs => (c :: g) :: gs

/-- Model of Python `str.lower` for the ASCII range. -/
def lowerChar (c : Char) : Char :=
  if 'A' ≤ c ∧ c ≤ 'Z' then Char.ofNat (c.toNat + 32) else c

/-! ## Python numeric primitives -/

/-- Python `round` to the nearest integer: round-half-to-even. -/
def round_half_even (x : ℚ) : ℤ :=
  let f := ⌊x⌋
  let r := x - f
  if r < 1/2 then f
  else if 1/2 < r then f + 1
  else if 2 ∣ f then f else f + 1

/-- Python `round(x, 1)`: round to one decimal place, half to even. -/
def round1 (x : ℚ) : ℚ := (round_half_even (10 * x) : ℚ) / 10

/-- Numeric value of a digit character. -/
def digitVal (c : Char) : ℕ := c.toNat - 48

/-- Value of a fractional digit string: `parseFrac "25" = 0.25`. -/
def parseFrac (cs : List Char) : ℚ :=
  cs.foldr (fun c acc => ((digitVal c : ℚ) + acc) / 10) 0

/-- Accumulating decimal-literal reader: digits, then optionally a dot and
fractional digits. -/
def parseDecHead (acc : ℕ) : List Char → ℚ
  | [] => (acc : ℚ)
  | c :: cs =>
    if c = '.' then (acc : ℚ) + parseFrac cs
    else parseDecHead (10 * acc + digitVal c) cs

/-- Value of an unsigned decimal literal such as `0.5` or `12`. -/
def parseDecimalQ (cs : List Char) : ℚ := parseDecHead 0 cs

/-- Shape of the fractional part: nonempty, all digits. -/
def fracShape (cs : List Char) : Bool :=
  !cs.isEmpty && cs.all (fun c => c.isDigit)

/-- Shape of a decimal literal after its first digit. -/
def restShape : List Char → Bool
  | [] => true
  | c :: cs => if c = '.' then fracShape cs else c.isDigit && restShape cs

/-- Shape of an unsigned decimal literal: digits, optionally a dot and more
digits.  This is also the shape accepted by the rendering-layer regex group. -/
def decimalShape : List Char → Bool
  | [] => false
  | c :: cs => c.isDigit && restShape cs

/-- Model of Python `float(s)` restricted to optionally signed plain decimal
literals, the only inputs the pipeline produces for it. -/
def pyFloat (cs : List Char) : Except String ℚ :=
  match cs with
  | '-' :: rest =>
    if decimalShape rest then .ok (-(parseDecimalQ rest))
    else .error "could not convert string to float"
  | _ =>
    if decimalShape cs then .ok (parseDecimalQ cs)
    else .error "could not convert string to float"

/-- Python `sorted(set(l))` for rationals: deduplicate, sort ascending. -/
def dedupSortQ (l : List ℚ) : List ℚ := (l.dedup).insertionSort (· ≤ ·)

/-! ## Configuration constants of `precompute_network_coverage.py` -/

def MILES_TO_METERS : ℚ := 1609344 / 1000

def DEFAULT_DISTANCE_START : ℚ := 1/10

def DEFAULT_DISTANCE_END : ℚ := 1

def DEFAULT_DISTANCE_STEP : ℚ := 1/10

/-- `NETWORK_CONFIG`: per-mode `(edge_buffer_m, node_buffer_m)`. -/
def NETWORK_CONFIG : List (List Char × ℚ × ℚ) :=
  [("walk".toList, 60, 40), ("drive".toList, 90, 60)]

/-- Keys of `NETWORK_CONFIG`, in order. -/
def networkModes : List (List Char) := NETWORK_CONFIG.map Prod.fst

/-! ## CLI arguments and the validation phase of `main` -/

/-- The argparse surface of `precompute_network_coverage.py` that the
distance/mode resolution reads. -/
structure Args where
  distance_miles : Option ℚ
  distance_start : ℚ
  distance_end : ℚ
  distance_step : ℚ
  distances : String
  modes : String

/-- The comma-split, stripped, lowercased mode names requested on the CLI
(the list comprehension in `parse_modes`). -/
def requestedModes (s : String) : List (List Char) :=
  ((splitOnComma s.toList).filter (fun m => !(trimChars m).isEmpty)).map
    (fun m => (trimChars m).map lowerChar)

/-- Separator-joined rendering used for the `ValueError` message. -/
def joinCommaSpace : List (List Char) → List Char
  | [] => []
  | [m] => m
  | m :: ms => m ++ (',' :: ' ' :: joinCommaSpace ms)

/-- Embedding of `parse_modes` (precompute script, lines 147-152): invalid
requested modes raise `ValueError`; an empty request defaults to every
configured mode. -/
def parse_modes (s : String) : Except String (List (List Char)) :=
  let requested := requestedModes s
  let invalid := requested.filter (fun m => decide (m ∉ networkModes))
  if invalid = [] then
    .ok (match requested with
      | [] => networkModes
      | r => r)
  else
    .error (String.mk ("Unsupported mode(s): ".toList ++ joinCommaSpace invalid))

/-- Parsed values of the `--distances` list: comma-split pieces that are
nonempty after stripping, each fed to `float`. -/
def listValues (s : String) : Except String (List ℚ) :=
  ((splitOnComma s.toList).filter (fun v => !(trimChars v).isEmpty)).mapM
    (fun v => pyFloat (trimChars v))

/-- One iteration bound sufficient for the `while current <= end + 1e-9`
loop when the step is positive. -/
def rangeFuel (start stop step : ℚ) : ℕ := (⌈(stop - start) / step⌉).toNat + 1

/-- The range-generation loop of `parse_distances`, fuelled. -/
def rangeLoop : ℕ → ℚ → ℚ → ℚ → List ℚ
  | 0, _, _, _ => []
  | fuel + 1, current, stop, step =>
    if current ≤ stop then round1 current :: rangeLoop fuel (current + step) stop step
    else []

/-- Embedding of `parse_distances` (precompute script, lines 132-144).
The Python while-loop diverges when the step is nonpositive and the start
does not already exceed the end; that divergence is modelled as an error. -/
def parse_distances (a : Args) : Except String (List ℚ) :=
  match a.distance_miles with
  | some x => .ok [round1 x]
  | none =>
    if !(trimChars a.distances.toList).isEmpty then
      (listValues a.distances).map (fun vs => dedupSortQ (vs.map round1))
    else
      let stop := a.distance_end + 1 / 1000000000
      if 0 < a.distance_step then
        .ok (dedupSortQ
          (rangeLoop (rangeFuel a.distance_start stop a.distance_step)
            a.distance_start stop a.distance_step))
      else if stop < a.distance_start then .ok []
      else .error "distance range loop does not terminate"

/-- The configuration phase of `main` (lines 165-166): distances are
resolved first, then modes; both precede any graph construction. -/
def configPhase (a : Args) : Except String (List ℚ × List (List Char)) := do
  let distances ← parse_distances a
  let modes ← parse_modes a.modes
  return (distances, modes)

/-- Whether `main` reaches the per-mode graph-building loop: it does
exactly when the configuration phase raised no error (the mode list is
never empty, so the loop body then runs). -/
def startsGraphWork (a : Args) : Bool :=
  match configPhase a with
  | .ok _ => true
  | .error _ => false

/-! ## The projected street graph and the ego-graph expansion -/

/-- A projected street graph: node identifiers, planar node positions in
metres, and directed edges `(u, v, length)`.  Multigraph edges are allowed
since the list may repeat endpoint pairs. -/
structure NetGraph where
  nodes : List ℕ
  pos : ℕ → ℚ × ℚ
  edges : List (ℕ × ℕ × ℚ)

/-- Minimum of two optional distances, `none` meaning unreachable. -/
def minOpt : Option ℚ → Option ℚ → Option ℚ
  | none, b => b
  | some a, none => some a
  | some a, some b => some (min a b)

/-- Bounded Bellman-Ford relaxation: value of the shortest walk from `c`
to `v` that uses at most `k` edges, if one exists. -/
def distsUpTo (G : NetGraph) (c : ℕ) : ℕ → ℕ → Option ℚ
  | 0, v => if v = c then some 0 else none
  | k + 1, v =>
    G.edges.foldr
      (fun e best =>
        if e.2.1 = v then minOpt ((distsUpTo G c k e.1).map (· + e.2.2)) best else best)
      (distsUpTo G c k v)

/-- Shortest-path distance from `c` to `v` along edge lengths.  For the
nonnegative lengths of a street graph, `G.nodes.length` relaxation rounds
reach every shortest-path value, matching the Dijkstra expansion that
`nx.ego_graph` performs. -/
def spDist (G : NetGraph) (c v : ℕ) : Option ℚ := distsUpTo G c G.nodes.length v

/-- Whether `v` lies within network distance `d` of `c`. -/
def withinDist (G : NetGraph) (c v : ℕ) (d : ℚ) : Bool :=
  ((spDist G c v).map (fun x => decide (x ≤ d))).getD false

/-- Node set of `nx.ego_graph(G, c, radius=d, distance="length")`. -/
def egoNodes (G : NetGraph) (c : ℕ) (d : ℚ) : List ℕ :=
  G.nodes.filter (fun v => withinDist G c v d)

/-- Edge set of the ego graph: the edges induced on `egoNodes`. -/
def egoEdges (G : NetGraph) (c : ℕ) (d : ℚ) : List (ℕ × ℕ × ℚ) :=
  G.edges.filter
    (fun e => decide (e.1 ∈ egoNodes G c d) && decide (e.2.1 ∈ egoNodes G c d))

/-! ## Shapely geometry over the plane -/

/-- Points of the projected plane. -/
abbrev Pt := ℝ × ℝ

/-- Planar position of a node, as a point of the real plane. -/
noncomputable def ptOf (p : ℚ × ℚ) : Pt := ((p.1 : ℝ), (p.2 : ℝ))

/-- `unary_union` of a list of geometries. -/
def unary_union (l : List (Set Pt)) : Set Pt := l.foldr (· ∪ ·) ∅

/-- shapely `Point(...).buffer(r)`: the closed disc of radius `r`. -/
def nodeBuffer (p : ℚ × ℚ) (r : ℝ) : Set Pt := Metric.closedBall (ptOf p) r

/-- shapely buffer of an edge geometry: the closed `r`-thickening of the
straight segment between its endpoints. -/
def edgeBuffer (p q : ℚ × ℚ) (r : ℝ) : Set Pt :=
  Metric.cthickening r (segment ℝ (ptOf p) (ptOf q))

/-- Buffered node geometries of the ego graph of `c`
(`nodes_gdf.geometry.buffer(node_buffer_m)`). -/
def nodeGeoms (G : NetGraph) (c : ℕ) (d : ℚ) (nb : ℝ) : List (Set Pt) :=
  (egoNodes G c d).map (fun v => nodeBuffer (G.pos v) nb)

/-- Buffered edge geometries of the ego graph of `c`
(`edges_gdf.geometry.buffer(edge_buffer_m)`). -/
def edgeGeoms (G : NetGraph) (c : ℕ) (d : ℚ) (eb : ℝ) : List (Set Pt) :=
  (egoEdges G c d).map (fun e => edgeBuffer (G.pos e.1) (G.pos e.2.1) eb)

/-- The `geoms` list accumulated for one origin node in
`build_service_area`: node buffers, then edge buffers. -/
def originGeoms (G : NetGraph) (c : ℕ) (d : ℚ) (eb nb : ℝ) : List (Set Pt) :=
  nodeGeoms G c d nb ++ edgeGeoms G c d eb

/-- Contribution of one origin: `unary_union(geoms).convex_hull` when
`geoms` is nonempty (`if geoms:`), nothing otherwise. -/
def originPoly (G : NetGraph) (c : ℕ) (d : ℚ) (eb nb : ℝ) : Option (Set Pt) :=
  match originGeoms G c d eb nb with
  | [] => none
  | gs => some (convexHull ℝ (unary_union gs))

/-- Python `sorted(set(origin_nodes))`: the iteration order of the
per-origin loop in `build_service_area`. -/
def sortedUnique (l : List ℕ) : List ℕ := (l.dedup).insertionSort (· ≤ ·)

/-- Embedding of `build_service_area` (precompute script, lines 100-124):
union the per-origin convex hulls over the sorted unique origin nodes,
returning `None` when no origin contributed a polygon. -/
def build_service_area (G : NetGraph) (origin_nodes : List ℕ) (distance_m : ℚ)
    (edge_buffer_m node_buffer_m : ℝ) : Option (Set Pt) :=
  match (sortedUnique origin_nodes).filterMap
      (fun c => originPoly G c distance_m edge_buffer_m node_buffer_m) with
  | [] => none
  | ps => some (unary_union ps)

/-- The set held by an optional coverage polygon (`None` covers nothing). -/
def optSet : Option (Set Pt) → Set Pt
  | none => ∅
  | some s => s

/-! ## The aggregation step of `main` -/

/-- shapely `.area`: planar Lebesgue measure. -/
noncomputable def area (s : Set Pt) : ℝ≥0∞ := MeasureTheory.volume s

/-- One per-`(mode, distance)` summary record of
`network_coverage_summary.json`. -/
structure SummaryRec where
  unique_origin_nodes : ℕ
  covered_area_sq_m : ℝ≥0∞
  uncovered_area_sq_m : ℝ≥0∞
  coverage_ratio : ℝ≥0∞

/-- The aggregation of `main` (lines 204-221) applied to a non-`None`
coverage polygon `cov0`: clip to the boundary, subtract for the uncovered
region, and record areas and the coverage ratio (zero when the boundary
area is falsy). -/
noncomputable def summaryRecord (cov0 boundary : Set Pt) (origin_nodes : List ℕ) : SummaryRec :=
  let coverage := cov0 ∩ boundary
  let uncovered := boundary \ coverage
  let total := area boundary
  { unique_origin_nodes := (sortedUnique origin_nodes).length
    covered_area_sq_m := area coverage
    uncovered_area_sq_m := area uncovered
    coverage_ratio := if total = 0 then 0 else area coverage / total }

/-- One `(mode, distance)` iteration of `main` (lines 195-221).  When
`build_service_area` returns `None`, line 204 invokes `.intersection` on
`None` and the run dies with `AttributeError`; that failure is the error
case here. -/
noncomputable def mainStep (G : NetGraph) (origin_nodes : List ℕ) (boundary : Set Pt)
    (distance_miles : ℚ) (edge_buffer_m node_buffer_m : ℝ) : Except String SummaryRec :=
  match build_service_area G origin_nodes (distance_miles * MILES_TO_METERS)
      edge_buffer_m node_buffer_m with
  | none => .error "AttributeError: NoneType object has no attribute intersection"
  | some cov0 => .ok (summaryRecord cov0 boundary origin_nodes)

/-! ## Geometry normalization (`app.py` `extract_geometry`,
`precompute_network_coverage.py` `load_boundary_geometry`) -/

/-- A geometry mapping as found in the boundary files: the study-region
boundary is a polygon or multipolygon given by rings of coordinates. -/
inductive GeometryData where
  | polygon (rings : List (List (ℚ × ℚ)))
  | multiPolygon (polys : List (List (List (ℚ × ℚ))))
deriving DecidableEq

/-- A shapely geometry object produced by `shape(...)`. -/
inductive ShapelyGeom where
  | polygon (rings : List (List (ℚ × ℚ)))
  | multiPolygon (polys : List (List (List (ℚ × ℚ))))
deriving DecidableEq

/-- shapely `shape(mapping)`: parse a geometry mapping into a geometry
object. -/
def shape : GeometryData → ShapelyGeom
  | .polygon r => .polygon r
  | .multiPolygon p => .multiPolygon p

/-- The GeoJSON-like values distinguished by the `"type"` field in
`extract_geometry` and `load_boundary_geometry`. -/
inductive GeoJsonValue where
  | featureCollection (features : List GeoJsonValue)
  | feature (geometry : GeometryData)
  | geometry (g : GeometryData)

/-- Embedding of `extract_geometry` (`app.py` lines 58-63) and of the
identical dispatch in `load_boundary_geometry` (precompute script, lines
78-85): a FeatureCollection uses `features[0]["geometry"]`, a Feature its
own geometry, anything else is fed to `shape` directly.  `none` models the
`IndexError` on an empty feature list and the `KeyError` when the first
collection entry has no `"geometry"` member. -/
def extract_geometry : GeoJsonValue → Option ShapelyGeom
  | .featureCollection features =>
    match features with
    | [] => none
    | f :: _ =>
      match f with
      | .feature g => some (shape g)
      | _ => none
  | .feature g => some (shape g)
  | .geometry g => some (shape g)

/-! ## The Euclidean coverage circles of `app.py` -/

def EARTH_RADIUS_MI : ℝ := 3958.7613

def CIRCLE_STEPS : ℕ := 48

/-- Python `math.atan2`. -/
noncomputable def atan2 (y x : ℝ) : ℝ :=
  if 0 < x then Real.arctan (y / x)
  else if x < 0 ∧ 0 ≤ y then Real.arctan (y / x) + Real.pi
  else if x < 0 then Real.arctan (y / x) - Real.pi
  else if 0 < y then Real.pi / 2
  else if y < 0 then -(Real.pi / 2)
  else 0

/-- Embedding of `destination_point` (`app.py` lines 75-89): great-circle
destination, returned as `(lon, lat)` in degrees. -/
noncomputable def destination_point (lat lon bearing_deg distance_mi : ℝ) : ℝ × ℝ :=
  let angular_distance := distance_mi / EARTH_RADIUS_MI
  let lat1 := lat * (Real.pi / 180)
  let lon1 := lon * (Real.pi / 180)
  let bearing := bearing_deg * (Real.pi / 180)
  let lat2 := Real.arcsin
    (Real.sin lat1 * Real.cos angular_distance
      + Real.cos lat1 * Real.sin angular_distance * Real.cos bearing)
  let lon2 := lon1 + atan2
    (Real.sin bearing * Real.sin angular_distance * Real.cos lat1)
    (Real.cos angular_distance - Real.sin lat1 * Real.sin lat2)
  (lon2 * (180 / Real.pi), lat2 * (180 / Real.pi))

/-- The ring built by `build_circle_feature`: one vertex per step, then
`ring.append(ring[0])` closes it. -/
noncomputable def circle_ring (lat lon radius_mi : ℝ) : List (ℝ × ℝ) :=
  let ring := (List.range CIRCLE_STEPS).map
    (fun step : ℕ => destination_point lat lon ((360 * (step : ℝ)) / (CIRCLE_STEPS : ℝ)) radius_mi)
  match ring with
  | [] => []
  | p :: ps => (p :: ps) ++ [p]

/-- The fields of the Polygon feature returned by `build_circle_feature`. -/
structure CircleFeature where
  radius_miles : ℝ
  coordinates : List (List (ℝ × ℝ))

/-- Embedding of `build_circle_feature` (`app.py` lines 92-102): a Polygon
feature with a single, explicitly closed ring. -/
noncomputable def build_circle_feature (lat lon radius_mi : ℝ) : CircleFeature :=
  { radius_miles := radius_mi
    coordinates := [circle_ring lat lon radius_mi] }

/-! ## The filename contract between writer and rendering layer -/

/-- Match a literal prefix, returning the remainder. -/
def dropPre : List Char → List Char → Option (List Char)
  | [], cs => some cs
  | _ :: _, [] => none
  | p :: ps, c :: cs => if p = c then dropPre ps cs else none

/-- Match a literal suffix, returning the remainder. -/
def dropSuf (suf cs : List Char) : Option (List Char) :=
  (dropPre suf.reverse cs.reverse).map List.reverse

/-- Digit character for a value below ten. -/
def digitChar (n : ℕ) : Char := Char.ofNat (48 + n)

/-- Decimal digit string of a natural number, with recursion fuel. -/
def natChars : ℕ → ℕ → List Char
  | 0, _ => []
  | fuel + 1, n =>
    if n < 10 then [digitChar n]
    else natChars fuel (n / 10) ++ [digitChar (n % 10)]

/-- Python `f"{x:.1f}"`: round to one decimal place and print with exactly
one fractional digit. -/
def fmt1 (x : ℚ) : List Char :=
  let k := round_half_even (10 * x)
  let m := k.natAbs
  (if k < 0 then ['-'] else [])
    ++ natChars (m / 10 + 1) (m / 10) ++ ('.' :: [digitChar (m % 10)])

/-- The uncovered-layer filename written by `main` (line 208):
`f"{mode}_uncovered_{distance_miles:.1f}mi.geojson"`. -/
def uncovered_name (mode : List Char) (d : ℚ) : List Char :=
  mode ++ "_uncovered_".toList ++ fmt1 d ++ "mi.geojson".toList

/-- The filename parse of `load_network_uncovered_layers` (`app.py` lines
44-55): the anchored regex `^(mode)_uncovered_(\d+(?:\.\d+)?)mi\.geojson$`,
whose group is fed to `float` and rounded to one decimal place to form the
dictionary key of the layer. -/
def layer_key (mode name : List Char) : Option ℚ :=
  match dropPre (mode ++ "_uncovered_".toList) name with
  | none => none
  | some rest =>
    match dropSuf "mi.geojson".toList rest with
    | none => none
    | some mid =>
      if decimalShape mid then some (round1 (parseDecimalQ mid)) else none

/-! ## Concrete fixtures used to evaluate the pipeline -/

/-- A small concrete street graph: a two-edge path `0 -100m- 1 -100m- 2`
(edges in both directions, as osmnx produces for a walk network) together
with an isolated node `7`. -/
def Gpath : NetGraph :=
  { nodes := [0, 1, 2, 7]
    pos := fun v => ((100 * (v : ℚ), 0))
    edges := [(0, 1, 100), (1, 0, 100), (1, 2, 100), (2, 1, 100)] }

/-- An invocation whose range resolves to no distances (start beyond end). -/
def argsEmptyRange : Args := ⟨none, 2, 1, 1/10, "", "walk,drive"⟩

/-- An invocation requesting an unsupported mode. -/
def argsInvalidMode : Args := ⟨none, 1/10, 1, 1/10, "", "walk,bike"⟩

/-- An invocation passing both `--distance-miles` and `--distances`. -/
def argsBothFlags : Args := ⟨some (7/10), 1/10, 1, 1/10, "0.1,0.2", "walk"⟩

/-- An invocation passing only an explicit `--distances` list. -/
def argsListOnly : Args := ⟨none, 1/10, 1, 1/10, "0.3,0.1", ""⟩

/-- An invocation passing a single `--distance-miles`. -/
def argsSingle : Args := ⟨some (1/2), 1/10, 1, 1/10, "", "walk"⟩

/-! ## Basic lemmas about the geometric and list combinators -/

theorem mem_unary_union {l : List (Set Pt)} {x : Pt} :
    x ∈ unary_union l ↔ ∃ s ∈ l, x ∈ s := by
  induction l with
  | nil => simp [unary_union]
  | cons s rest ih =>
    simp only [unary_union, List.foldr_cons, Set.mem_union, List.mem_cons] at ih ⊢
    constructor
    · rintro (hx | hx)
      · exact ⟨s, Or.inl rfl, hx⟩
      · obtain ⟨t, ht, hxt⟩ := ih.mp hx
        exact ⟨t, Or.inr ht, hxt⟩
    · rintro ⟨t, (rfl | ht), hxt⟩
      · exact Or.inl hxt
      · exact Or.inr (ih.mpr ⟨t, ht, hxt⟩)

theorem unary_union_subset {l₁ l₂ : List (Set Pt)} (h : ∀ s ∈ l₁, s ∈ l₂) :
    unary_union l₁ ⊆ unary_union l₂ := by
  intro x hx
  obtain ⟨s, hs, hxs⟩ := mem_unary_union.mp hx
  exact mem_unary_union.mpr ⟨s, h s hs, hxs⟩

theorem sortedUnique_nodup (l : List ℕ) : (sortedUnique l).Nodup :=
  (List.perm_insertionSort (· ≤ ·) l.dedup).nodup_iff.mpr l.nodup_dedup

theorem sortedUnique_length (l : List ℕ) :
    (sortedUnique l).length = l.toFinset.card := by
  rw [List.card_toFinset]
  exact (List.perm_insertionSort (· ≤ ·) l.dedup).length_eq

theorem sortedUnique_dedup (l : List ℕ) : sortedUnique l.dedup = sortedUnique l := by
  unfold sortedUnique
  rw [List.dedup_idem]

/-! ## Inversion lemmas for `originPoly` and `build_service_area` -/

theorem originPoly_eq_some {G : NetGraph} {c : ℕ} {d : ℚ} {eb nb : ℝ} {P : Set Pt}
    (h : originPoly G c d eb nb = some P) :
    originGeoms G c d eb nb ≠ [] ∧
      P = convexHull ℝ (unary_union (originGeoms G c d eb nb)) := by
  cases hg : originGeoms G c d eb nb with
  | nil => rw [originPoly, hg] at h; exact absurd h (by simp)
  | cons g gs =>
    rw [originPoly, hg] at h
    exact ⟨by simp [hg], (Option.some.inj h).symm⟩

theorem originPoly_of_ne_nil {G : NetGraph} {c : ℕ} {d : ℚ} {eb nb : ℝ}
    (h : originGeoms G c d eb nb ≠ []) :
    originPoly G c d eb nb
      = some (convexHull ℝ (unary_union (originGeoms G c d eb nb))) := by
  cases hg : originGeoms G c d eb nb with
  | nil => exact absurd hg h
  | cons g gs => rw [originPoly, hg]

theorem build_service_area_eq_some {G : NetGraph} {l : List ℕ} {d : ℚ} {eb nb : ℝ}
    {P : Set Pt}
    (h : build_service_area G l d eb nb = some P) :
    (sortedUnique l).filterMap (fun c => originPoly G c d eb nb) ≠ [] ∧
      P = unary_union ((sortedUnique l).filterMap (fun c => originPoly G c d eb nb)) := by
  cases hp : (sortedUnique l).filterMap (fun c => originPoly G c d eb nb) with
  | nil => rw [build_service_area, hp] at h; exact absurd h (by simp)
  | cons p ps =>
    rw [build_service_area, hp] at h
    exact ⟨by simp [hp], (Option.some.inj h).symm⟩

theorem build_service_area_of_ne_nil {G : NetGraph} {l : List ℕ} {d : ℚ} {eb nb : ℝ}
    (h : (sortedUnique l).filterMap (fun c => originPoly G c d eb nb) ≠ []) :
    build_service_area G l d eb nb
      = some (unary_union ((sortedUnique l).filterMap (fun c => originPoly G c d eb nb))) := by
  cases hp : (sortedUnique l).filterMap (fun c => originPoly G c d eb nb) with
  | nil => exact absurd hp h
  | cons p ps => rw [build_service_area, hp]

/-! ## Monotonicity of the ego-graph expansion in the distance threshold -/

theorem withinDist_mono {G : NetGraph} {c v : ℕ} {d1 d2 : ℚ} (h : d1 ≤ d2)
    (hw : withinDist G c v d1 = true) : withinDist G c v d2 = true := by
  unfold withinDist at hw ⊢
  cases hsp : spDist G c v with
  | none => simp [hsp] at hw
  | some x =>
    simp only [hsp, Option.map_some', Option.getD_some, decide_eq_true_eq] at hw ⊢
    exact le_trans hw h

theorem egoNodes_mono {G : NetGraph} {c : ℕ} {d1 d2 : ℚ} (h : d1 ≤ d2) :
    ∀ v ∈ egoNodes G c d1, v ∈ egoNodes G c d2 := by
  intro v hv
  rw [egoNodes, List.mem_filter] at hv ⊢
  exact ⟨hv.1, withinDist_mono h hv.2⟩

theorem egoEdges_mono {G : NetGraph} {c : ℕ} {d1 d2 : ℚ} (h : d1 ≤ d2) :
    ∀ e ∈ egoEdges G c d1, e ∈ egoEdges G c d2 := by
  intro e he
  rw [egoEdges, List.mem_filter] at he ⊢
  obtain ⟨hmem, hcond⟩ := he
  simp only [Bool.and_eq_true, decide_eq_true_eq] at hcond ⊢
  exact ⟨hmem, egoNodes_mono h _ hcond.1, egoNodes_mono h _ hcond.2⟩

theorem originGeoms_mono {G : NetGraph} {c : ℕ} {d1 d2 : ℚ} {eb nb : ℝ} (h : d1 ≤ d2) :
    ∀ s ∈ originGeoms G c d1 eb nb, s ∈ originGeoms G c d2 eb nb := by
  intro s hs
  rw [originGeoms, List.mem_append] at hs ⊢
  rcases hs with hs | hs
  · left
    rw [nodeGeoms, List.mem_map] at hs ⊢
    obtain ⟨v, hv, rfl⟩ := hs
    exact ⟨v, egoNodes_mono h v hv, rfl⟩
  · right
    rw [edgeGeoms, List.mem_map] at hs ⊢
    obtain ⟨e, he, rfl⟩ := hs
    exact ⟨e, egoEdges_mono h e he, rfl⟩

theorem originPoly_mono {G : NetGraph} {c : ℕ} {d1 d2 : ℚ} {eb nb : ℝ} (h : d1 ≤ d2)
    {P : Set Pt} {x : Pt} (hp : originPoly G c d1 eb nb = some P) (hx : x ∈ P) :
    ∃ Q, originPoly G c d2 eb nb = some Q ∧ x ∈ Q := by
  obtain ⟨hne, hP⟩ := originPoly_eq_some hp
  have hne2 : originGeoms G c d2 eb nb ≠ [] := by
    obtain ⟨s, hs⟩ := List.exists_mem_of_ne_nil _ hne
    exact List.ne_nil_of_mem (originGeoms_mono h s hs)
  subst hP
  exact ⟨_, originPoly_of_ne_nil hne2,
    convexHull_mono (unary_union_subset (originGeoms_mono h)) hx⟩

/-! ## The origin node always lies in its own ego graph -/

theorem foldr_relax_exists_le (G : NetGraph) (c v : ℕ) (k : ℕ) (l : List (ℕ × ℕ × ℚ))
    (init : Option ℚ) (x : ℚ) (hinit : ∃ y, init = some y ∧ y ≤ x) :
    ∃ y, (l.foldr
        (fun e best =>
          if e.2.1 = v then minOpt ((distsUpTo G c k e.1).map (· + e.2.2)) best else best)
        init) = some y ∧ y ≤ x := by
  induction l with
  | nil => exact hinit
  | cons e rest ih =>
    obtain ⟨y, hy, hyx⟩ := ih
    simp only [List.foldr_cons]
    by_cases hcond : e.2.1 = v
    · rw [if_pos hcond, hy]
      cases hmap : (distsUpTo G c k e.1).map (· + e.2.2) with
      | none => exact ⟨y, rfl, hyx⟩
      | some a => exact ⟨min a y, rfl, le_trans (min_le_right a y) hyx⟩
    · rw [if_neg hcond]
      exact ⟨y, hy, hyx⟩

theorem distsUpTo_self_exists_le (G : NetGraph) (c : ℕ) :
    ∀ k, ∃ y, distsUpTo G c k c = some y ∧ y ≤ 0
  | 0 => ⟨0, by simp [distsUpTo], le_refl 0⟩
  | k + 1 => by
    have h := distsUpTo_self_exists_le G c k
    show ∃ y, G.edges.foldr _ (distsUpTo G c k c) = some y ∧ y ≤ 0
    exact foldr_relax_exists_le G c c k G.edges (distsUpTo G c k c) 0 h

theorem withinDist_self {G : NetGraph} {c : ℕ} {d : ℚ} (hd : 0 ≤ d) :
    withinDist G c c d = true := by
  obtain ⟨y, hy, h0⟩ := distsUpTo_self_exists_le G c G.nodes.length
  unfold withinDist spDist
  rw [hy]
  simp only [Option.map_some', Option.getD_some, decide_eq_true_eq]
  exact le_trans h0 hd

/-! ## Claim theorems -/

/-- C1: the specification says that a null coverage polygon (for example
from an empty origin set) must aggregate to `uncovered = boundary`,
`coverage_ratio = 0.0`, without failing the run.  The code disagrees:
`build_service_area` returns `None` for an empty origin set, and line 204
of `main` then calls `.intersection` on `None`, so the run dies with an
`AttributeError` instead of producing the degenerate record. -/
theorem c1_empty_coverage_crashes :
    build_service_area Gpath [] ((1/2) * MILES_TO_METERS) 60 40 = none
    ∧ mainStep Gpath [] Set.univ (1/2) 60 40
        = Except.error "AttributeError: NoneType object has no attribute intersection" :=
  ⟨rfl, rfl⟩

/-- C2: for a fixed mode, graph and origin set, the coverage polygon of
`build_service_area` at a larger distance threshold contains the coverage
polygon at a smaller one, and the covered area is therefore
non-decreasing in the threshold. -/
theorem c2_coverage_monotone (G : NetGraph) (origin_nodes : List ℕ) (d1 d2 : ℚ)
    (eb nb : ℝ) (h : d1 ≤ d2) :
    optSet (build_service_area G origin_nodes d1 eb nb)
        ⊆ optSet (build_service_area G origin_nodes d2 eb nb)
    ∧ area (optSet (build_service_area G origin_nodes d1 eb nb))
        ≤ area (optSet (build_service_area G origin_nodes d2 eb nb)) := by
  have hsub : optSet (build_service_area G origin_nodes d1 eb nb)
      ⊆ optSet (build_service_area G origin_nodes d2 eb nb) := by
    intro x hx
    cases h1 : build_service_area G origin_nodes d1 eb nb with
    | none => rw [h1] at hx; exact absurd hx (by simp [optSet])
    | some P =>
      rw [h1] at hx
      simp only [optSet] at hx
      obtain ⟨hne, hP⟩ := build_service_area_eq_some h1
      rw [hP] at hx
      obtain ⟨S, hS, hxS⟩ := mem_unary_union.mp hx
      obtain ⟨c, hc, hSome⟩ := List.mem_filterMap.mp hS
      obtain ⟨Q, hQ, hxQ⟩ := originPoly_mono h hSome hxS
      have hQmem : Q ∈ (sortedUnique origin_nodes).filterMap
          (fun c => originPoly G c d2 eb nb) :=
        List.mem_filterMap.mpr ⟨c, hc, hQ⟩
      rw [build_service_area_of_ne_nil (List.ne_nil_of_mem hQmem)]
      simp only [optSet]
      exact mem_unary_union.mpr ⟨Q, hQmem, hxQ⟩
  exact ⟨hsub, MeasureTheory.measure_mono hsub⟩

/-- Witness for C2 at a concrete graph and thresholds. -/
theorem c2_coverage_monotone_witness :
    (1 : ℚ) ≤ 2
    ∧ (optSet (build_service_area Gpath [0] 1 60 40)
          ⊆ optSet (build_service_area Gpath [0] 2 60 40)
        ∧ area (optSet (build_service_area Gpath [0] 1 60 40))
          ≤ area (optSet (build_service_area Gpath [0] 2 60 40))) :=
  ⟨by decide, c2_coverage_monotone Gpath [0] 1 2 60 40 (by decide)⟩

/-- C4 counterexample: the claim says an isolated origin (no edges
reachable within the threshold) contributes no polygon.  On the code, the
ego graph of the isolated node `7` still contains the node itself, so the
origin contributes the convex hull of its buffered node, and the
resulting coverage union even contains the node position. -/
theorem c4_counterexample :
    build_service_area Gpath [7] 100 60 40 ≠ none
    ∧ build_service_area Gpath [7] 100 60 40
      = some (unary_union [convexHull ℝ (unary_union [nodeBuffer (Gpath.pos 7) 40])])
    ∧ ptOf (Gpath.pos 7) ∈ optSet (build_service_area Gpath [7] 100 60 40) := by
  refine ⟨?_, rfl, ?_⟩
  · show some (unary_union [convexHull ℝ (unary_union [nodeBuffer (Gpath.pos 7) 40])]) ≠ none
    exact Option.some_ne_none _
  show ptOf (Gpath.pos 7)
    ∈ optSet (some (unary_union [convexHull ℝ (unary_union [nodeBuffer (Gpath.pos 7) 40])]))
  simp only [optSet]
  refine mem_unary_union.mpr ⟨_, List.mem_singleton.mpr rfl, ?_⟩
  refine subset_convexHull ℝ _ ?_
  refine mem_unary_union.mpr ⟨_, List.mem_singleton.mpr rfl, ?_⟩
  exact Metric.mem_closedBall_self (by norm_num)

/-- C4 as the code behaves: an origin contributes a polygon precisely when
its `geoms` list is nonempty, and the list is never empty for an origin
that is a node of the graph at a nonnegative threshold — the ego subgraph
always contains the origin itself, so even an origin with no reachable
edges contributes the hull of its buffered node. -/
theorem c4_isolated_origin_contributes (G : NetGraph) (c : ℕ) (d : ℚ) (eb nb : ℝ)
    (hc : c ∈ G.nodes) (hd : 0 ≤ d) :
    originPoly G c d eb nb ≠ none
    ∧ (originGeoms G c d eb nb = [] → originPoly G c d eb nb = none) := by
  constructor
  · have hmem : c ∈ egoNodes G c d := List.mem_filter.mpr ⟨hc, withinDist_self hd⟩
    have hball : nodeBuffer (G.pos c) nb ∈ originGeoms G c d eb nb := by
      rw [originGeoms, List.mem_append]
      left
      rw [nodeGeoms, List.mem_map]
      exact ⟨c, hmem, rfl⟩
    rw [originPoly_of_ne_nil (List.ne_nil_of_mem hball)]
    exact Option.some_ne_none _
  · intro hg
    rw [originPoly, hg]

/-- Witness for the amended C4 at the isolated node of `Gpath`. -/
theorem c4_isolated_origin_contributes_witness :
    7 ∈ Gpath.nodes ∧ (0 : ℚ) ≤ 100
    ∧ (originPoly Gpath 7 100 60 40 ≠ none
        ∧ (originGeoms Gpath 7 100 60 40 = [] → originPoly Gpath 7 100 60 40 = none)) :=
  ⟨by decide, by decide, c4_isolated_origin_contributes Gpath 7 100 60 40 (by decide) (by decide)⟩

/-- C5 counterexample: a start beyond the end makes the distance list
resolve to empty, yet the configuration phase succeeds and `main`
proceeds to graph building instead of failing with a validation error. -/
theorem c5_counterexample :
    parse_distances argsEmptyRange = .ok []
    ∧ startsGraphWork argsEmptyRange = true :=
  ⟨by decide, by decide⟩

/-- C5 as the code behaves: requesting an unsupported mode does fail the
run with a validation error before any graph building (an empty distance
list, however, is not validated — see the counterexample). -/
theorem c5_invalid_mode_fails_fast (a : Args)
    (h : (requestedModes a.modes).filter (fun m => decide (m ∉ networkModes)) ≠ []) :
    startsGraphWork a = false := by
  have hmsg : parse_modes a.modes
      = .error (String.mk ("Unsupported mode(s): ".toList
          ++ joinCommaSpace
            ((requestedModes a.modes).filter (fun m => decide (m ∉ networkModes))))) := by
    simp only [parse_modes]
    rw [if_neg h]
  unfold startsGraphWork configPhase
  cases hd : parse_distances a with
  | error e => rfl
  | ok ds => simp [Bind.bind, Except.bind, hmsg]

/-- Witness for the amended C5 at a concrete invalid invocation. -/
theorem c5_invalid_mode_fails_fast_witness :
    (requestedModes argsInvalidMode.modes).filter (fun m => decide (m ∉ networkModes)) ≠ []
    ∧ startsGraphWork argsInvalidMode = false :=
  ⟨by decide, c5_invalid_mode_fails_fast argsInvalidMode (by decide)⟩

/-- C6: the per-origin loop iterates over `sorted(set(origin_nodes))`, so
the shortest-path expansion runs exactly once per unique origin node, and
the coverage polygon of a duplicated origin list is identical to that of
the deduplicated list. -/
theorem c6_dedup_coverage (G : NetGraph) (origin_nodes : List ℕ) (d : ℚ) (eb nb : ℝ)
    (hdup : ¬ origin_nodes.Nodup) :
    (sortedUnique origin_nodes).Nodup
    ∧ (sortedUnique origin_nodes).length = origin_nodes.toFinset.card
    ∧ build_service_area G origin_nodes d eb nb
        = build_service_area G origin_nodes.dedup d eb nb := by
  refine ⟨sortedUnique_nodup _, sortedUnique_length _, ?_⟩
  unfold build_service_area
  rw [sortedUnique_dedup]

/-- Witness for C6 on a duplicated origin list. -/
theorem c6_dedup_coverage_witness :
    ¬ ([5, 5, 3] : List ℕ).Nodup
    ∧ ((sortedUnique [5, 5, 3]).Nodup
        ∧ (sortedUnique [5, 5, 3]).length = ([5, 5, 3] : List ℕ).toFinset.card
        ∧ build_service_area Gpath [5, 5, 3] 1 60 40
            = build_service_area Gpath ([5, 5, 3] : List ℕ).dedup 1 60 40) :=
  ⟨by decide, c6_dedup_coverage Gpath [5, 5, 3] 1 60 40 (by decide)⟩

/-- C8 counterexample: when `--distance-miles` is passed together with a
non-empty `--distances` list, the resolved distance set comes from
`--distance-miles` alone and is not derived from the list. -/
theorem c8_counterexample :
    parse_distances argsBothFlags = .ok [7/10]
    ∧ (listValues argsBothFlags.distances).map (fun vs => dedupSortQ (vs.map round1))
        = .ok [1/10, 1/5]
    ∧ ([7/10] : List ℚ) ≠ [1/10, 1/5] :=
  ⟨by decide, by decide, by decide⟩

/-- C9: the geometry-normalization dispatch shared by `extract_geometry`
and `load_boundary_geometry`: a FeatureCollection contributes only the
geometry of the feature at index 0 (the remaining features are ignored),
a Feature contributes its own geometry, and a bare geometry is used
directly; in each case the result is the single parsed
polygon/multipolygon. -/
theorem c9_extract_geometry_dispatch :
    (∀ (g : GeometryData) (rest : List GeoJsonValue),
        extract_geometry (.featureCollection (.feature g :: rest)) = some (shape g))
    ∧ (∀ g : GeometryData, extract_geometry (.feature g) = some (shape g))
    ∧ (∀ g : GeometryData, extract_geometry (.geometry g) = some (shape g)) :=
  ⟨fun _ _ => rfl, fun _ => rfl, fun _ => rfl⟩

/-- C10: `build_circle_feature` returns a Polygon feature with a single
ring of exactly `CIRCLE_STEPS + 1 = 49` coordinate pairs whose last
coordinate equals its first: the ring is explicitly closed and nonempty. -/
theorem c10_circle_ring_closed (lat lon r : ℝ) :
    (build_circle_feature lat lon r).coordinates.length = 1
    ∧ ∀ ring ∈ (build_circle_feature lat lon r).coordinates,
        ring.length = CIRCLE_STEPS + 1 ∧ ring.length = 49
        ∧ ring.head? = ring.getLast? ∧ ring ≠ [] := by
  refine ⟨rfl, ?_⟩
  intro ring hring
  simp only [build_circle_feature, List.mem_singleton] at hring
  subst hring
  cases hL : (List.range CIRCLE_STEPS).map
      (fun step : ℕ => destination_point lat lon ((360 * (step : ℝ)) / (CIRCLE_STEPS : ℝ)) r) with
  | nil =>
    have h0 := congrArg List.length hL
    rw [List.length_map, List.length_range] at h0
    exact absurd h0 (by decide)
  | cons p ps =>
    have hh := congrArg List.length hL
    rw [List.length_map, List.length_range, List.length_cons] at hh
    have hlen : ps.length = 47 := by
      have hh2 : 48 = ps.length + 1 := hh
      omega
    simp only [circle_ring, hL]
    refine ⟨?_, ?_, ?_, by simp⟩
    · rw [List.length_append, List.length_cons, hlen]
      rfl
    · rw [List.length_append, List.length_cons, hlen]
      rfl
    · rw [List.getLast?_concat]
      rfl

/-! ## Null-measurability of the coverage polygon -/

theorem nullMeasurable_originPoly {G : NetGraph} {c : ℕ} {d : ℚ} {eb nb : ℝ} {P : Set Pt}
    (h : originPoly G c d eb nb = some P) :
    MeasureTheory.NullMeasurableSet P MeasureTheory.volume := by
  obtain ⟨-, hP⟩ := originPoly_eq_some h
  subst hP
  exact (convex_convexHull ℝ _).nullMeasurableSet _

theorem nullMeasurable_unary_union {l : List (Set Pt)}
    (h : ∀ s ∈ l, MeasureTheory.NullMeasurableSet s MeasureTheory.volume) :
    MeasureTheory.NullMeasurableSet (unary_union l) MeasureTheory.volume := by
  induction l with
  | nil => exact MeasurableSet.empty.nullMeasurableSet
  | cons s rest ih =>
    exact (h s (List.mem_cons_self s rest)).union
      (ih (fun t ht => h t (List.mem_cons_of_mem s ht)))

theorem nullMeasurable_build_service_area {G : NetGraph} {l : List ℕ} {d : ℚ}
    {eb nb : ℝ} {P : Set Pt} (h : build_service_area G l d eb nb = some P) :
    MeasureTheory.NullMeasurableSet P MeasureTheory.volume := by
  obtain ⟨hne, hP⟩ := build_service_area_eq_some h
  subst hP
  refine nullMeasurable_unary_union ?_
  intro s hs
  obtain ⟨c, hc, hsome⟩ := List.mem_filterMap.mp hs
  exact nullMeasurable_originPoly hsome

/-- C3: every summary record written by a `(mode, distance)` iteration of
`main` satisfies `covered_area_sq_m + uncovered_area_sq_m = area boundary`
(exactly, in the set model) and has its coverage ratio inside `[0, 1]`. -/
theorem c3_summary_invariants (G : NetGraph) (origin_nodes : List ℕ) (boundary : Set Pt)
    (distance_miles : ℚ) (eb nb : ℝ) (rec : SummaryRec)
    (hrun : mainStep G origin_nodes boundary distance_miles eb nb = Except.ok rec) :
    rec.covered_area_sq_m + rec.uncovered_area_sq_m = area boundary
    ∧ 0 ≤ rec.coverage_ratio ∧ rec.coverage_ratio ≤ 1 := by
  cases hbsa : build_service_area G origin_nodes (distance_miles * MILES_TO_METERS) eb nb with
  | none =>
    simp only [mainStep, hbsa] at hrun
    exact Except.noConfusion hrun
  | some cov0 =>
    simp only [mainStep, hbsa, Except.ok.injEq] at hrun
    subst hrun
    have hnm := nullMeasurable_build_service_area hbsa
    refine ⟨?_, zero_le _, ?_⟩
    · show area (cov0 ∩ boundary) + area (boundary \ (cov0 ∩ boundary)) = area boundary
      rw [Set.diff_inter_self_eq_diff, Set.inter_comm cov0 boundary]
      exact MeasureTheory.measure_inter_add_diff₀ boundary hnm
    · show (if area boundary = 0 then 0
        else area (cov0 ∩ boundary) / area boundary) ≤ 1
      by_cases htot : area boundary = 0
      · rw [if_pos htot]
        exact zero_le_one
      · rw [if_neg htot]
        by_cases htop : area boundary = ⊤
        · rw [htop, ENNReal.div_top]
          exact zero_le_one
        · have hle : area (cov0 ∩ boundary) ≤ area boundary :=
            MeasureTheory.measure_mono Set.inter_subset_right
          calc area (cov0 ∩ boundary) / area boundary
              ≤ area boundary / area boundary := ENNReal.div_le_div_right hle _
            _ = 1 := ENNReal.div_self htot htop

/-- Witness for C3: a successful run over the concrete graph with an
empty boundary. -/
theorem c3_summary_invariants_witness :
    ∃ rec, mainStep Gpath [0] ∅ 1 60 40 = Except.ok rec
      ∧ (rec.covered_area_sq_m + rec.uncovered_area_sq_m = area (∅ : Set Pt)
          ∧ 0 ≤ rec.coverage_ratio ∧ rec.coverage_ratio ≤ 1) :=
  ⟨summaryRecord _ ∅ [0], rfl,
    c3_summary_invariants Gpath [0] ∅ 1 60 40 _ rfl⟩

/-! ## Digits, printing and parsing of one-decimal distances -/

theorem digit_facts :
    ∀ n, n < 10 →
      (digitChar n).isDigit = true ∧ digitChar n ≠ '.' ∧ digitVal (digitChar n) = n := by
  decide

theorem isDigit_ne_dot {c : Char} (h : c.isDigit = true) : c ≠ '.' := by
  intro hc
  subst hc
  exact absurd h (by decide)

theorem natChars_ne_nil {fuel n : ℕ} (h : 0 < fuel) : natChars fuel n ≠ [] := by
  cases fuel with
  | zero => exact absurd h (by omega)
  | succ f =>
    rw [natChars]
    by_cases h10 : n < 10
    · rw [if_pos h10]
      simp
    · rw [if_neg h10]
      simp

theorem natChars_all_digit :
    ∀ fuel n, n < 10 ^ fuel → ∀ c ∈ natChars fuel n, c.isDigit = true
  | 0, n, h => by
    intro c hc
    simp [natChars] at hc
  | fuel + 1, n, h => by
    rw [natChars]
    by_cases h10 : n < 10
    · rw [if_pos h10]
      intro c hc
      simp only [List.mem_singleton] at hc
      subst hc
      exact (digit_facts n h10).1
    · rw [if_neg h10]
      intro c hc
      rw [List.mem_append] at hc
      rcases hc with hc | hc
      · refine natChars_all_digit fuel (n / 10) ?_ c hc
        have hnb : n < 10 * 10 ^ fuel := by
          rw [pow_succ] at h
          omega
        exact Nat.div_lt_of_lt_mul hnb
      · simp only [List.mem_singleton] at hc
        subst hc
        exact (digit_facts (n % 10) (Nat.mod_lt n (by norm_num))).1

theorem parseDecHead_natChars :
    ∀ fuel n, n < 10 ^ fuel → ∀ (acc : ℕ) (t : List Char),
      parseDecHead acc (natChars fuel n ++ t)
        = parseDecHead (acc * 10 ^ (natChars fuel n).length + n) t
  | 0, n, h => by
    intro acc t
    have hn : n = 0 := by
      simp only [pow_zero] at h
      omega
    subst hn
    simp [natChars]
  | fuel + 1, n, h => by
    intro acc t
    rw [natChars]
    by_cases h10 : n < 10
    · rw [if_pos h10]
      have hne : digitChar n ≠ '.' := (digit_facts n h10).2.1
      simp only [List.singleton_append, List.length_cons, List.length_nil]
      rw [parseDecHead, if_neg hne, (digit_facts n h10).2.2]
      congr 1
      omega
    · rw [if_neg h10]
      have hnb : n < 10 * 10 ^ fuel := by
        rw [pow_succ] at h
        omega
      have hdiv : n / 10 < 10 ^ fuel := Nat.div_lt_of_lt_mul hnb
      rw [List.append_assoc, List.singleton_append]
      rw [parseDecHead_natChars fuel (n / 10) hdiv acc (digitChar (n % 10) :: t)]
      have hne : digitChar (n % 10) ≠ '.' :=
        (digit_facts (n % 10) (Nat.mod_lt n (by norm_num))).2.1
      rw [parseDecHead, if_neg hne,
        (digit_facts (n % 10) (Nat.mod_lt n (by norm_num))).2.2]
      rw [List.length_append, List.length_cons, List.length_nil]
      congr 1
      have hdm : 10 * (n / 10) + n % 10 = n := Nat.div_add_mod n 10
      simp only [Nat.add_zero, Nat.zero_add]
      calc 10 * (acc * 10 ^ (natChars fuel (n / 10)).length + n / 10) + n % 10
          = acc * (10 ^ (natChars fuel (n / 10)).length * 10)
            + (10 * (n / 10) + n % 10) := by ring
        _ = acc * 10 ^ ((natChars fuel (n / 10)).length + 1) + n := by
            rw [hdm, pow_succ]

theorem parseFrac_single {n : ℕ} (h : n < 10) :
    parseFrac [digitChar n] = (n : ℚ) / 10 := by
  rw [parseFrac, List.foldr_cons, List.foldr_nil, (digit_facts n h).2.2]
  rw [add_zero]

theorem parseDecimalQ_fmt (m : ℕ) :
    parseDecimalQ (natChars (m / 10 + 1) (m / 10) ++ '.' :: [digitChar (m % 10)])
      = (m : ℚ) / 10 := by
  have hb : m / 10 < 10 ^ (m / 10 + 1) :=
    lt_of_lt_of_le (Nat.lt_pow_self (by norm_num) (m / 10))
      (Nat.pow_le_pow_right (by norm_num) (Nat.le_succ _))
  rw [parseDecimalQ, parseDecHead_natChars _ _ hb 0 _]
  rw [parseDecHead, if_pos rfl]
  rw [parseFrac_single (Nat.mod_lt m (by norm_num))]
  have hdm : (10 * (m / 10) + m % 10 : ℕ) = m := Nat.div_add_mod m 10
  calc ((0 * 10 ^ (natChars (m / 10 + 1) (m / 10)).length + m / 10 : ℕ) : ℚ)
        + ((m % 10 : ℕ) : ℚ) / 10
      = ((10 * (m / 10) + m % 10 : ℕ) : ℚ) / 10 := by push_cast; ring
    _ = (m : ℚ) / 10 := by rw [hdm]

theorem restShape_digits_append {bs : List Char} :
    ∀ ds, (∀ c ∈ ds, c.isDigit = true) →
      restShape (ds ++ '.' :: bs) = fracShape bs
  | [], _ => by
    rw [List.nil_append, restShape, if_pos rfl]
  | d :: ds, h => by
    rw [List.cons_append, restShape,
      if_neg (isDigit_ne_dot (h d (List.mem_cons_self d ds)))]
    rw [h d (List.mem_cons_self d ds),
      restShape_digits_append ds (fun c hc => h c (List.mem_cons_of_mem d hc))]
    rw [Bool.true_and]

theorem decimalShape_fmt {ds bs : List Char} (hne : ds ≠ [])
    (hd : ∀ c ∈ ds, c.isDigit = true) (hb : fracShape bs = true) :
    decimalShape (ds ++ '.' :: bs) = true := by
  cases ds with
  | nil => exact absurd rfl hne
  | cons d rest =>
    rw [List.cons_append, decimalShape,
      hd d (List.mem_cons_self d rest),
      restShape_digits_append rest (fun c hc => hd c (List.mem_cons_of_mem d hc)), hb]
    rfl

/-! ## Fixed points of one-decimal rounding -/

theorem round_half_even_intCast (k : ℤ) : round_half_even (k : ℚ) = k := by
  simp only [round_half_even, Int.floor_intCast, sub_self]
  norm_num

theorem round1_fixed (x : ℚ) : round1 (round1 x) = round1 x := by
  have h : (10 : ℚ) * (((round_half_even (10 * x) : ℤ) : ℚ) / 10)
      = ((round_half_even (10 * x) : ℤ) : ℚ) := by ring
  rw [round1, round1, h, round_half_even_intCast]

theorem round1_fixed_data {d : ℚ} (h : round1 d = d) (h0 : 0 ≤ d) :
    ∃ m : ℕ, ((m : ℤ) : ℚ) = 10 * d ∧ round_half_even (10 * d) = (m : ℤ) := by
  have hk : ((round_half_even (10 * d) : ℤ) : ℚ) = 10 * d := by
    rw [round1] at h
    have h10 : ((round_half_even (10 * d) : ℤ) : ℚ) = d * 10 :=
      (div_eq_iff (by norm_num : (10 : ℚ) ≠ 0)).mp h
    rw [h10]
    ring
  have hknn : 0 ≤ round_half_even (10 * d) := by
    have : (0 : ℚ) ≤ ((round_half_even (10 * d) : ℤ) : ℚ) := by
      rw [hk]
      positivity
    exact_mod_cast this
  refine ⟨(round_half_even (10 * d)).toNat, ?_, ?_⟩
  · rw [Int.toNat_of_nonneg hknn]
    exact hk
  · rw [Int.toNat_of_nonneg hknn]

theorem fmt1_of_nonneg {d : ℚ} {m : ℕ} (hk : round_half_even (10 * d) = (m : ℤ)) :
    fmt1 d = natChars (m / 10 + 1) (m / 10) ++ '.' :: [digitChar (m % 10)] := by
  simp only [fmt1, hk]
  rw [if_neg (by exact_mod_cast Int.not_lt.mpr (Int.ofNat_nonneg m))]
  rw [Int.natAbs_ofNat]
  rfl

/-! ## Prefix and suffix matching of the rendering-layer regex -/

theorem dropPre_append (p r : List Char) : dropPre p (p ++ r) = some r := by
  induction p with
  | nil => rfl
  | cons c cs ih =>
    rw [List.cons_append, dropPre, if_pos rfl, ih]

theorem dropSuf_append (suf r : List Char) : dropSuf suf (r ++ suf) = some r := by
  rw [dropSuf, List.reverse_append, dropPre_append, Option.map_some', List.reverse_reverse]

/-! ## Every resolved distance is a fixed point of `round1` -/

theorem mem_dedupSortQ {l : List ℚ} {q : ℚ} : q ∈ dedupSortQ l ↔ q ∈ l := by
  rw [dedupSortQ, (List.perm_insertionSort _ _).mem_iff, List.mem_dedup]

theorem mem_rangeLoop_round1 :
    ∀ (fuel : ℕ) (cur stop step q : ℚ),
      q ∈ rangeLoop fuel cur stop step → ∃ v, q = round1 v
  | 0, cur, stop, step, q => by
    intro hq
    simp [rangeLoop] at hq
  | fuel + 1, cur, stop, step, q => by
    rw [rangeLoop]
    by_cases hle : cur ≤ stop
    · rw [if_pos hle]
      intro hq
      rcases List.mem_cons.mp hq with hq | hq
      · exact ⟨cur, hq⟩
      · exact mem_rangeLoop_round1 fuel (cur + step) stop step q hq
    · rw [if_neg hle]
      intro hq
      simp at hq

theorem parse_distances_mem_round1 {a : Args} {l : List ℚ} {d : ℚ}
    (hl : parse_distances a = .ok l) (hd : d ∈ l) : round1 d = d := by
  rw [parse_distances] at hl
  cases hm : a.distance_miles with
  | some x =>
    rw [hm] at hl
    have hlx : l = [round1 x] := (Except.ok.inj hl).symm
    subst hlx
    rcases List.mem_singleton.mp hd with rfl
    exact round1_fixed x
  | none =>
    rw [hm] at hl
    by_cases ht : (trimChars a.distances.toList).isEmpty = false
    · rw [ht] at hl
      simp only [Bool.not_false, if_pos] at hl
      cases hv : listValues a.distances with
      | error e =>
        rw [hv] at hl
        exact Except.noConfusion hl
      | ok vs =>
        rw [hv] at hl
        have hlv : l = dedupSortQ (vs.map round1) := (Except.ok.inj hl).symm
        subst hlv
        obtain ⟨v, hv2, rfl⟩ := List.mem_map.mp (mem_dedupSortQ.mp hd)
        exact round1_fixed v
    · have ht2 : (trimChars a.distances.toList).isEmpty = true := by
        cases hcs : (trimChars a.distances.toList).isEmpty with
        | false => exact absurd hcs ht
        | true => rfl
      rw [ht2] at hl
      simp only [Bool.not_true, Bool.false_eq_true, if_false] at hl
      by_cases hstep : 0 < a.distance_step
      · rw [if_pos hstep] at hl
        have hlr := (Except.ok.inj hl).symm
        subst hlr
        obtain ⟨v, rfl⟩ :=
          mem_rangeLoop_round1 _ _ _ _ _ (mem_dedupSortQ.mp hd)
        exact round1_fixed v
      · rw [if_neg hstep] at hl
        by_cases hstop : a.distance_end + 1 / 1000000000 < a.distance_start
        · rw [if_pos hstop] at hl
          have hlr : l = [] := (Except.ok.inj hl).symm
          subst hlr
          exact absurd hd (List.not_mem_nil d)
        · rw [if_neg hstop] at hl
          exact Except.noConfusion hl

/-- C7: every distance in a resolved distance list round-trips through the
filename contract: the writer formats it to one decimal place inside
`{mode}_uncovered_{d:.1f}mi.geojson`, and the rendering-layer parse of
that filename recovers exactly `d` as the lookup key of the layer. -/
theorem c7_filename_roundtrip (a : Args) (l : List ℚ) (d : ℚ) (mode : List Char)
    (hl : parse_distances a = .ok l) (hd : d ∈ l) (h0 : 0 ≤ d) :
    layer_key mode (uncovered_name mode d) = some d := by
  have hfix := parse_distances_mem_round1 hl hd
  obtain ⟨m, hmq, hmk⟩ := round1_fixed_data hfix h0
  have hfmt := fmt1_of_nonneg hmk
  have hassoc : mode ++ "_uncovered_".toList ++ fmt1 d ++ "mi.geojson".toList
      = (mode ++ "_uncovered_".toList) ++ (fmt1 d ++ "mi.geojson".toList) := by
    simp [List.append_assoc]
  have hshape : decimalShape (fmt1 d) = true := by
    rw [hfmt]
    refine decimalShape_fmt (natChars_ne_nil (Nat.succ_pos _)) ?_ ?_
    · exact natChars_all_digit _ _
        (lt_of_lt_of_le (Nat.lt_pow_self (by norm_num) (m / 10))
          (Nat.pow_le_pow_right (by norm_num) (Nat.le_succ _)))
    · rw [fracShape]
      simp [(digit_facts (m % 10) (Nat.mod_lt m (by norm_num))).1]
  have hval : round1 (parseDecimalQ (fmt1 d)) = d := by
    rw [hfmt, parseDecimalQ_fmt m]
    have hdq : (m : ℚ) / 10 = d := by
      have : ((m : ℤ) : ℚ) = (m : ℚ) := by push_cast; rfl
      rw [← this, hmq]
      ring
    rw [hdq, hfix]
  rw [layer_key, uncovered_name, hassoc, dropPre_append]
  show (match dropSuf "mi.geojson".toList (fmt1 d ++ "mi.geojson".toList) with
    | none => none
    | some mid =>
      if decimalShape mid = true then some (round1 (parseDecimalQ mid)) else none) = some d
  rw [dropSuf_append]
  show (if decimalShape (fmt1 d) = true then some (round1 (parseDecimalQ (fmt1 d)))
    else none) = some d
  rw [if_pos hshape, hval]

/-- Witness for C7 at a concrete invocation and distance. -/
theorem c7_filename_roundtrip_witness :
    parse_distances argsSingle = .ok [1/2] ∧ (1/2 : ℚ) ∈ [(1/2 : ℚ)] ∧ (0 : ℚ) ≤ 1/2
    ∧ layer_key "walk".toList (uncovered_name "walk".toList (1/2)) = some (1/2) :=
  ⟨by decide, by decide, by decide,
    c7_filename_roundtrip argsSingle [1/2] (1/2) "walk".toList (by decide) (by decide)
      (by decide)⟩

/-- C8 (amended): when `--distance-miles` is absent and the explicit
`--distances` list is non-empty, the resolved distance set is derived from
that list alone — the start/end/step range flags are ignored — and is the
list of `round1` values of the listed numbers, deduplicated and sorted in
ascending order. -/
theorem c8_explicit_list_resolution (a : Args) (ds de dstep : ℚ) (vs : List ℚ)
    (hm : a.distance_miles = none)
    (hne : (trimChars a.distances.toList).isEmpty = false)
    (hvs : listValues a.distances = .ok vs) :
    parse_distances
        { a with distance_start := ds, distance_end := de, distance_step := dstep }
      = parse_distances a
    ∧ parse_distances a = .ok (dedupSortQ (vs.map round1))
    ∧ (dedupSortQ (vs.map round1)).Sorted (· ≤ ·)
    ∧ (dedupSortQ (vs.map round1)).Nodup
    ∧ ∀ q, q ∈ dedupSortQ (vs.map round1) ↔ ∃ v ∈ vs, round1 v = q := by
  have hbranch : parse_distances a = .ok (dedupSortQ (vs.map round1)) := by
    rw [parse_distances, hm, hne]
    simp only [Bool.not_false, if_pos]
    rw [hvs]
    rfl
  refine ⟨?_, hbranch, ?_, ?_, ?_⟩
  · rw [parse_distances, hm, hne]
    simp only [Bool.not_false, if_pos]
    rw [parse_distances, hm, hne]
    simp only [Bool.not_false, if_pos]
  · exact List.sorted_insertionSort _ _
  · exact (List.perm_insertionSort _ _).nodup_iff.mpr (List.nodup_dedup _)
  · intro q
    rw [mem_dedupSortQ, List.mem_map]

/-- Witness for the amended C8 at a concrete invocation, with arbitrary
replacement range flags. -/
theorem c8_explicit_list_resolution_witness :
    argsListOnly.distance_miles = none
    ∧ (trimChars argsListOnly.distances.toList).isEmpty = false
    ∧ listValues argsListOnly.distances = .ok [3/10, 1/10]
    ∧ (parse_distances
          { argsListOnly with distance_start := 5, distance_end := 6, distance_step := 7 }
        = parse_distances argsListOnly
      ∧ parse_distances argsListOnly = .ok (dedupSortQ ([3/10, 1/10].map round1))
      ∧ (dedupSortQ ([3/10, 1/10].map round1)).Sorted (· ≤ ·)
      ∧ (dedupSortQ ([3/10, 1/10].map round1)).Nodup
      ∧ ∀ q, q ∈ dedupSortQ ([3/10, 1/10].map round1) ↔ ∃ v ∈ [3/10, 1/10], round1 v = q) :=
  ⟨by decide, by decide, by decide,
    c8_explicit_list_resolution argsListOnly 5 6 7 [3/10, 1/10] (by decide) (by decide)
      (by decide)⟩

end AtlantaCoverage
